import Mathlib

/-!
Shallow embedding of `src/coroutine/coroutine.c`, a single-threaded
shared-stack coroutine runtime built on the ucontext primitives.

Modelling conventions:
* Machine memory regions are byte maps `Nat → Nat` (offset ↦ byte value).
  The shared stack of the scheduler is `STACK_SIZE` bytes; only offsets
  `< STACK_SIZE` are meaningful.
* The ucontext execution-context record (`ucontext_t`) is an external
  primitive (spec §1: out of scope), so the `ctx` field and the
  getcontext/makecontext/swapcontext calls are not modelled; an operation
  that performs `swapcontext` is modelled up to the switch point, returning
  the scheduler state as it stands when the switch happens.
* `assert` failure (process abort) is modelled by an explicit `abort` /
  `none` outcome; undefined behaviour on paths unreachable under the
  scheduler's invariants (e.g. indexing `S->co` past its allocation) is
  also mapped to the abort outcome.
* The `sch` back-pointer of `struct coroutine` is not representable in a
  value model (it is a self-reference to the owning scheduler) and is not
  read by any modelled operation, so it is omitted.
* `malloc` returns uninitialised memory; freshly allocated bytes that the
  program never reads before writing are modelled as `0`.
-/

/-- STACK_SIZE from coroutine.c: `#define STACK_SIZE (1024*1024)`. -/
def STACK_SIZE : Nat := 1024 * 1024

/-- DEFAULT_COROUTINE from coroutine.c: `#define DEFAULT_COROUTINE 16`. -/
def DEFAULT_COROUTINE : Nat := 16

/-- Coroutine status. The numeric constants live in coroutine.h
(COROUTINE_DEAD 0, COROUTINE_READY 1, COROUTINE_RUNNING 2,
COROUTINE_SUSPEND 3); only their identity matters to the model.
`dead` is never stored in a live coroutine object: `coroutine_status`
reports it for an empty table slot. -/
inductive CoStatus where
  | dead
  | ready
  | running
  | suspend
deriving DecidableEq, Repr

/-- struct coroutine (minus the external `ucontext_t ctx` and the `sch`
back-pointer, see the module docstring). `stack` is the private saved-stack
buffer: only offsets `< size` are ever read back, `cap` is the allocated
capacity (`ptrdiff_t cap`, always non-negative in this program). -/
structure Coroutine where
  func : Nat
  ud : Nat
  cap : Nat
  size : Nat
  status : CoStatus
  stack : Nat → Nat

/-- struct schedule. `stack` is the single shared physical stack region
(`char stack[STACK_SIZE]`), `nco` the live-coroutine count, `cap` the
allocated slot count, `running` the running coroutine id (`-1` = none),
`co` the slot array (length `cap` whenever the C object is well-formed). -/
structure Schedule where
  stack : Nat → Nat
  nco : Nat
  cap : Nat
  running : Int
  co : List (Option Coroutine)

/-- The copy step of `_save_stack` (coroutine.c line 196:
`memcpy(C->stack, &dummy, C->size)` with `&dummy = S->stack + STACK_SIZE - n`):
byte `i` of the private buffer receives byte `STACK_SIZE - n + i` of the
shared region, for `i < n`. -/
def save_bytes (shared : Nat → Nat) (n : Nat) : Nat → Nat :=
  fun i => shared (STACK_SIZE - n + i)

/-- The copy step of the `COROUTINE_SUSPEND` branch of `coroutine_resume`
(coroutine.c line 175: `memcpy(S->stack + STACK_SIZE - C->size, C->stack,
C->size)`): offsets `[STACK_SIZE - n, STACK_SIZE)` of the shared region are
overwritten from the private buffer, all other offsets keep their bytes. -/
def restore_bytes (buf : Nat → Nat) (n : Nat) (shared : Nat → Nat) : Nat → Nat :=
  fun off =>
    if STACK_SIZE - n ≤ off ∧ off < STACK_SIZE then buf (off - (STACK_SIZE - n))
    else shared off

/-- `_co_new`: fresh coroutine in READY state with an empty private buffer
(`cap = 0`, `size = 0`, `stack = NULL`; the buffer contents are never read
while `size = 0`, so the NULL buffer is modelled as the zero map). -/
def co_new (f u : Nat) : Coroutine :=
  { func := f, ud := u, cap := 0, size := 0, status := CoStatus.ready,
    stack := fun _ => 0 }

/-- `coroutine_open`: default-capacity empty scheduler, no coroutine
running. The malloc'd shared stack is uninitialised; modelled as zeros
(nothing reads it before a coroutine writes it). -/
def coroutine_open : Schedule :=
  { stack := fun _ => 0, nco := 0, cap := DEFAULT_COROUTINE, running := -1,
    co := List.replicate DEFAULT_COROUTINE none }

/-- The buffer update of `_save_stack` (coroutine.c lines 185–196):
if the capacity is below `n` the buffer is reallocated with capacity
exactly `n` (old contents dropped, fresh bytes beyond the copy never
read, modelled 0); then `size := n` and the top `n` live bytes of the
shared region are copied in. The `assert(top - &dummy <= STACK_SIZE)`
is checked by the caller `coroutine_yield` in this model. -/
def save_stack_upd (C : Coroutine) (shared : Nat → Nat) (n : Nat) : Coroutine :=
  { C with
    cap := if C.cap < n then n else C.cap,
    size := n,
    stack := fun i =>
      if i < n then save_bytes shared n i
      else if C.cap < n then 0 else C.stack i }

/-- Outcome of `coroutine_resume`: `abort` = an `assert` fired (or UB on a
path those asserts make unreachable), `ret S` = returned normally without
switching contexts (the `C == NULL` early return), `switch S` = the state
at the moment `swapcontext(&S->main, &C->ctx)` transfers control into the
coroutine. -/
inductive ResumeOutcome where
  | abort
  | ret (S : Schedule)
  | switch (S : Schedule)

/-- `coroutine_resume` (coroutine.c lines 154–183), modelled up to the
context switch. -/
def coroutine_resume (S : Schedule) (id : Int) : ResumeOutcome :=
  if S.running ≠ -1 then ResumeOutcome.abort
  else if ¬ (0 ≤ id ∧ id < (S.cap : Int)) then ResumeOutcome.abort
  else
    match S.co[id.toNat]? with
    | none => ResumeOutcome.abort
    | some none => ResumeOutcome.ret S
    | some (some C) =>
      match C.status with
      | CoStatus.ready =>
          ResumeOutcome.switch
            { S with running := id,
                     co := S.co.set id.toNat (some { C with status := CoStatus.running }) }
      | CoStatus.suspend =>
          ResumeOutcome.switch
            { S with stack := restore_bytes C.stack C.size S.stack,
                     running := id,
                     co := S.co.set id.toNat (some { C with status := CoStatus.running }) }
      | _ => ResumeOutcome.abort

/-- `coroutine_yield` (coroutine.c lines 198–208), modelled up to the
context switch back to the main context. `n` is the number of live bytes
`(S->stack + STACK_SIZE) - &dummy` determined by the machine stack pointer
inside `_save_stack`; the `assert((char*)&C > S->stack)` address sanity
check concerns raw address layout and has no content in this byte-map
model. Success returns the scheduler state at the `swapcontext` point. -/
def coroutine_yield (S : Schedule) (n : Nat) : Option Schedule :=
  if S.running < 0 then none
  else
    match S.co[S.running.toNat]? with
    | some (some C) =>
        if n ≤ STACK_SIZE then
          some { S with
                 co := S.co.set S.running.toNat
                          (some { save_stack_upd C S.stack n with status := CoStatus.suspend }),
                 running := -1 }
        else none
    | _ => none

/-- The tail of `mainfunc` (coroutine.c lines 136–147) after the entry
function `C->func(S, C->ud)` returns: delete the coroutine, clear the
slot, decrement the live count, clear the running id. Control then falls
through to `uc_link` (the main context). The entry call itself runs
arbitrary user code and is not part of this cleanup step. -/
def mainfunc_finish (S : Schedule) : Option Schedule :=
  if S.running < 0 then none
  else
    match S.co[S.running.toNat]? with
    | some (some _) =>
        some { S with co := S.co.set S.running.toNat none,
                      nco := S.nco - 1,
                      running := -1 }
    | _ => none

/-- The slot scan of `coroutine_new`: `for (i=0;i<cap;i++)` probing slot
`(i + nco) % cap`; `fuel` counts the remaining iterations (the initial
call uses `fuel = cap`, `i = 0`, matching the C loop exactly). -/
def findFree (co : List (Option Coroutine)) (nco cap : Nat) : Nat → Nat → Option Nat
  | _, 0 => none
  | i, fuel + 1 =>
    match co[(i + nco) % cap]? with
    | some none => some ((i + nco) % cap)
    | _ => findFree co nco cap (i + 1) fuel

/-- `coroutine_new` (coroutine.c lines 110–134). Full table
(`nco >= cap`): double the slot array, zero the new half, place the new
coroutine at index `cap`, return that index. Otherwise scan for a free
slot; exhausting the scan is `assert(0)`, modelled `none`. -/
def coroutine_new (S : Schedule) (f u : Nat) : Option (Schedule × Nat) :=
  let co := co_new f u
  if S.cap ≤ S.nco then
    some ({ S with co := (S.co ++ List.replicate S.cap none).set S.cap (some co),
                   cap := S.cap * 2,
                   nco := S.nco + 1 }, S.cap)
  else
    match findFree S.co S.nco S.cap 0 S.cap with
    | some id => some ({ S with co := S.co.set id (some co), nco := S.nco + 1 }, id)
    | none => none

/-- `coroutine_status` (coroutine.c lines 210–217): DEAD for an empty slot,
otherwise the stored status; the id-range `assert` (and the out-of-sync
slot-array read it leaves unreachable) maps to `none`. -/
def coroutine_status (S : Schedule) (id : Int) : Option CoStatus :=
  if 0 ≤ id ∧ id < (S.cap : Int) then
    match S.co[id.toNat]? with
    | some none => some CoStatus.dead
    | some (some C) => some C.status
    | none => none
  else none

/-- `coroutine_running`: the running id, `-1` when none. -/
def coroutine_running (S : Schedule) : Int := S.running

/-- Spec §3 invariant: the running id is the none sentinel `-1` or a valid
slot index holding a coroutine whose state is Running. -/
def RunningInv (S : Schedule) : Prop :=
  S.running = -1 ∨
    (0 ≤ S.running ∧ S.running < (S.cap : Int) ∧
      ∃ C, S.co[S.running.toNat]? = some (some C) ∧ C.status = CoStatus.running)

/-- One suspended-coroutine resume/yield cycle acting on the private
buffer: restore into a (possibly clobbered) shared region, then save the
same `n` top bytes back out. -/
def save_restore_cycle (n : Nat) (buf clobbered : Nat → Nat) : Nat → Nat :=
  save_bytes (restore_bytes buf n clobbered) n

theorem save_restore_cycle_eq (n : Nat) (buf c : Nat → Nat) (hn : n ≤ STACK_SIZE)
    (i : Nat) (hi : i < n) : save_restore_cycle n buf c i = buf i := by
  unfold save_restore_cycle save_bytes restore_bytes
  have h1 : STACK_SIZE - n ≤ STACK_SIZE - n + i := Nat.le_add_right _ _
  have h2 : STACK_SIZE - n + i < STACK_SIZE := by omega
  simp only [h1, h2, and_self, if_pos]
  congr 1
  omega

/-- Claim C1: round-trip of the stack save/restore protocol. A coroutine
yields with its live stack occupying the top `n` bytes of the shared
region: `_save_stack` copies those bytes into its private buffer. Over
arbitrarily many subsequent resume/yield cycles (each resume restoring
into an arbitrarily clobbered shared region, each yield saving the same
`n` top bytes back out), the next resume's restore places every saved
byte at its original offset, so each byte of the live region after the
restore equals the corresponding byte before the first yield. -/
theorem stack_roundtrip (shared : Nat → Nat) (n : Nat) (clobbers : List (Nat → Nat))
    (final : Nat → Nat) (off : Nat) (hn : n ≤ STACK_SIZE)
    (hlo : STACK_SIZE - n ≤ off) (hhi : off < STACK_SIZE) :
    restore_bytes (clobbers.foldl (fun buf c => save_restore_cycle n buf c) (save_bytes shared n))
        n final off
      = shared off := by
  have hfold : ∀ (l : List (Nat → Nat)) (buf : Nat → Nat),
      (∀ i < n, buf i = save_bytes shared n i) →
      ∀ i < n, (l.foldl (fun b c => save_restore_cycle n b c) buf) i = save_bytes shared n i := by
    intro l
    induction l with
    | nil => intro buf h i hi; exact h i hi
    | cons c rest ih =>
        intro buf h i hi
        simp only [List.foldl_cons]
        refine ih _ ?_ i hi
        intro j hj
        rw [save_restore_cycle_eq n buf c hn j hj]
        exact h j hj
  have hb : ∀ i < n,
      (clobbers.foldl (fun b c => save_restore_cycle n b c) (save_bytes shared n)) i
        = save_bytes shared n i :=
    hfold clobbers (save_bytes shared n) (fun _ _ => rfl)
  unfold restore_bytes
  simp only [hlo, hhi, and_self, if_pos]
  have hidx : off - (STACK_SIZE - n) < n := by omega
  rw [hb _ hidx]
  unfold save_bytes
  congr 1
  omega

/-- Witness for `stack_roundtrip` at a concrete stack, two cycles. -/
theorem stack_roundtrip_witness :
    restore_bytes
        (([fun _ => 7, fun _ => 9] : List (Nat → Nat)).foldl
          (fun buf c => save_restore_cycle 4 buf c)
          (save_bytes (fun i => i % 251) 4))
        4 (fun _ => 3) (STACK_SIZE - 2)
      = (fun i => i % 251) (STACK_SIZE - 2) :=
  stack_roundtrip (fun i => i % 251) 4 [fun _ => 7, fun _ => 9] (fun _ => 3)
    (STACK_SIZE - 2) (by decide) (by decide) (by decide)

/-- Claim C2: resuming a Suspended coroutine copies its `size` saved bytes
back into the shared stack flush against the top (offsets
`[STACK_SIZE - size, STACK_SIZE)`), leaves all lower offsets untouched,
marks the coroutine Running and records it as the running id, all in the
state handed to `swapcontext`. -/
theorem resume_suspended (S : Schedule) (id : Int) (C : Coroutine)
    (hrun : S.running = -1) (hid0 : 0 ≤ id) (hid1 : id < (S.cap : Int))
    (hslot : S.co[id.toNat]? = some (some C)) (hst : C.status = CoStatus.suspend)
    (hsz : C.size ≤ STACK_SIZE) (hlen : S.co.length = S.cap) :
    ∃ S', coroutine_resume S id = ResumeOutcome.switch S' ∧
      S'.stack = restore_bytes C.stack C.size S.stack ∧
      (∀ i < C.size, S'.stack (STACK_SIZE - C.size + i) = C.stack i) ∧
      (∀ off < STACK_SIZE - C.size, S'.stack off = S.stack off) ∧
      coroutine_status S' id = some CoStatus.running ∧
      coroutine_running S' = id ∧
      S'.nco = S.nco ∧ S'.cap = S.cap := by
  have htoNat : id.toNat < S.co.length := by omega
  refine ⟨{ S with stack := restore_bytes C.stack C.size S.stack,
                   running := id,
                   co := S.co.set id.toNat (some { C with status := CoStatus.running }) },
          ?_, rfl, ?_, ?_, ?_, ?_, rfl, rfl⟩
  · simp [coroutine_resume, hrun, hslot, hst, hid0, hid1]
  · intro i hi
    unfold restore_bytes
    have h1 : STACK_SIZE - C.size ≤ STACK_SIZE - C.size + i := Nat.le_add_right _ _
    have h2 : STACK_SIZE - C.size + i < STACK_SIZE := by omega
    simp only [h1, h2, and_self, if_pos]
    congr 1
    omega
  · intro off hoff
    unfold restore_bytes
    have : ¬ (STACK_SIZE - C.size ≤ off ∧ off < STACK_SIZE) := by omega
    simp only [this, if_neg, not_false_iff]
  · unfold coroutine_status
    simp only [hid0, hid1, and_self, if_pos]
    rw [List.getElem?_set_eq_of_lt _ htoNat]
  · rfl

/-- Claim C3: yield with `n` live bytes copies exactly the top `n` bytes of
the shared region into the private buffer, records `size = n`, reallocates
the buffer only when the existing capacity is below `n` (and then to
exactly `n`), never shrinks it, marks the coroutine Suspended and clears
the running id, all before the switch back to the main context. -/
theorem yield_saves (S : Schedule) (n : Nat) (C : Coroutine)
    (hrun : 0 ≤ S.running) (hslot : S.co[S.running.toNat]? = some (some C))
    (hn : n ≤ STACK_SIZE) :
    ∃ C', coroutine_yield S n =
        some { S with co := S.co.set S.running.toNat (some C'), running := -1 } ∧
      C'.size = n ∧
      (∀ i < n, C'.stack i = S.stack (STACK_SIZE - n + i)) ∧
      C'.cap = (if C.cap < n then n else C.cap) ∧
      C.cap ≤ C'.cap ∧
      (n ≤ C.cap → C'.cap = C.cap ∧ ∀ i, n ≤ i → C'.stack i = C.stack i) ∧
      C'.status = CoStatus.suspend := by
  refine ⟨{ save_stack_upd C S.stack n with status := CoStatus.suspend },
          ?_, rfl, ?_, ?_, ?_, ?_, rfl⟩
  · have hnotlt : ¬ (S.running < 0) := by omega
    simp [coroutine_yield, hnotlt, hslot, hn]
  · intro i hi
    simp only [save_stack_upd, save_bytes]
    rw [if_pos hi]
  · rfl
  · simp only [save_stack_upd]
    split <;> omega
  · intro hcap
    constructor
    · simp only [save_stack_upd]
      rw [if_neg (by omega)]
    · intro i hni
      simp only [save_stack_upd]
      rw [if_neg (by omega), if_neg (by omega)]

/-- Claim C9: resume while a coroutine is already running, or with an id
outside `[0, cap)`, hits an `assert` and aborts before any state change;
the call is never queued or silently ignored. -/
theorem resume_reentrant_aborts (S : Schedule) (id : Int)
    (h : S.running ≠ -1 ∨ id < 0 ∨ (S.cap : Int) ≤ id) :
    coroutine_resume S id = ResumeOutcome.abort := by
  unfold coroutine_resume
  by_cases hr : S.running = -1
  · have hrange : ¬ (0 ≤ id ∧ id < (S.cap : Int)) := by
      rcases h with h | h | h
      · exact absurd hr h
      · omega
      · omega
    rw [if_neg (by simp [hr]), if_pos hrange]
  · rw [if_pos hr]

/-- Claim C10: resume on an in-range id whose slot is empty (status Dead)
is a silent no-op: `coroutine_resume` takes the `C == NULL` early return,
does not abort, and hands back the scheduler completely unchanged (same
table, live count, capacity, running id and shared stack). -/
theorem resume_dead_noop (S : Schedule) (id : Int)
    (hrun : S.running = -1) (hid0 : 0 ≤ id) (hid1 : id < (S.cap : Int))
    (hslot : S.co[id.toNat]? = some none) :
    coroutine_resume S id = ResumeOutcome.ret S := by
  simp [coroutine_resume, hrun, hid0, hid1, hslot]

/-- Claim C4, counterexample: on a freshly opened scheduler every slot is
empty (status Dead), yet `coroutine_resume S 0` returns normally (the
`C == NULL` early return) instead of aborting — refuting the claim that a
Dead-slot resume fails fatally and never returns normally. -/
theorem resume_dead_no_abort :
    coroutine_resume coroutine_open 0 = ResumeOutcome.ret coroutine_open ∧
    coroutine_resume coroutine_open 0 ≠ ResumeOutcome.abort := by
  have h1 : coroutine_resume coroutine_open 0 = ResumeOutcome.ret coroutine_open := rfl
  exact ⟨h1, by rw [h1]; intro h; exact ResumeOutcome.noConfusion h⟩

/-- Claim C4 as amended: with no coroutine running and `id` in range,
resume on a slot holding a coroutine whose state is neither Ready nor
Suspended aborts fatally, while resume on an empty (Dead) slot returns
normally as a no-op rather than aborting. -/
theorem resume_invalid_state (S : Schedule) (id : Int)
    (hrun : S.running = -1) (hid0 : 0 ≤ id) (hid1 : id < (S.cap : Int)) :
    (∀ C, S.co[id.toNat]? = some (some C) → C.status ≠ CoStatus.ready →
        C.status ≠ CoStatus.suspend → coroutine_resume S id = ResumeOutcome.abort) ∧
    (S.co[id.toNat]? = some none → coroutine_resume S id = ResumeOutcome.ret S) := by
  constructor
  · intro C hslot hnr hns
    have hst : C.status = CoStatus.dead ∨ C.status = CoStatus.running := by
      cases h : C.status
      · exact Or.inl rfl
      · exact absurd h hnr
      · exact Or.inr rfl
      · exact absurd h hns
    rcases hst with hst | hst <;>
      simp [coroutine_resume, hrun, hslot, hst, hid0, hid1]
  · intro hslot
    simp [coroutine_resume, hrun, hid0, hid1, hslot]

theorem mod_scan_surj (cap nco j : Nat) (hj : j < cap) :
    ∃ k, k < cap ∧ (k + nco) % cap = j := by
  have hpos : 0 < cap := by omega
  refine ⟨(j + cap - nco % cap) % cap, Nat.mod_lt _ hpos, ?_⟩
  have hr : nco % cap < cap := Nat.mod_lt _ hpos
  have hdiv : nco % cap + cap * (nco / cap) = nco := Nat.mod_add_div nco cap
  rw [Nat.mod_add_mod]
  have h2 : j + cap - nco % cap + nco = j + cap * (nco / cap + 1) := by
    have hm : cap * (nco / cap + 1) = cap * (nco / cap) + cap := by ring
    omega
  rw [h2, Nat.add_mul_mod_self_left, Nat.mod_eq_of_lt hj]

theorem findFree_some (co : List (Option Coroutine)) (nco cap : Nat) :
    ∀ fuel i id, findFree co nco cap i fuel = some id →
      ∃ k, k < fuel ∧ id = (i + k + nco) % cap ∧ co[id]? = some none ∧
        ∀ j, j < k → co[(i + j + nco) % cap]? ≠ some none := by
  intro fuel
  induction fuel with
  | zero => intro i id h; simp [findFree] at h
  | succ m ih =>
      intro i id h
      cases hslot : co[(i + nco) % cap]? with
      | none =>
          simp only [findFree, hslot] at h
          obtain ⟨k, hk, hid, hslot2, hmin⟩ := ih (i + 1) id h
          refine ⟨k + 1, by omega, ?_, hslot2, ?_⟩
          · rw [hid]; congr 1; omega
          · intro j hj
            cases j with
            | zero =>
                intro hc
                rw [show i + 0 + nco = i + nco from by omega, hslot] at hc
                exact Option.noConfusion hc
            | succ j' =>
                intro hc
                apply hmin j' (by omega)
                rw [show i + 1 + j' + nco = i + (j' + 1) + nco from by omega]
                exact hc
      | some o =>
          cases o with
          | none =>
              simp only [findFree, hslot, Option.some.injEq] at h
              refine ⟨0, by omega, ?_, ?_, ?_⟩
              · rw [← h]; simp
              · rw [← h]; exact hslot
              · intro j hj; exact absurd hj (Nat.not_lt_zero j)
          | some c =>
              simp only [findFree, hslot] at h
              obtain ⟨k, hk, hid, hslot2, hmin⟩ := ih (i + 1) id h
              refine ⟨k + 1, by omega, ?_, hslot2, ?_⟩
              · rw [hid]; congr 1; omega
              · intro j hj
                cases j with
                | zero =>
                    intro hc
                    rw [show i + 0 + nco = i + nco from by omega, hslot] at hc
                    exact Option.noConfusion (Option.some.inj hc)
                | succ j' =>
                    intro hc
                    apply hmin j' (by omega)
                    rw [show i + 1 + j' + nco = i + (j' + 1) + nco from by omega]
                    exact hc

theorem findFree_isSome (co : List (Option Coroutine)) (nco cap : Nat) :
    ∀ fuel i, (∃ k, k < fuel ∧ co[(i + k + nco) % cap]? = some none) →
      (findFree co nco cap i fuel).isSome := by
  intro fuel
  induction fuel with
  | zero =>
      intro i h
      obtain ⟨k, hk, _⟩ := h
      exact absurd hk (Nat.not_lt_zero k)
  | succ m ih =>
      intro i h
      obtain ⟨k, hk, hkslot⟩ := h
      cases hslot : co[(i + nco) % cap]? with
      | none =>
          simp only [findFree, hslot]
          apply ih (i + 1)
          cases k with
          | zero =>
              rw [show i + 0 + nco = i + nco from by omega, hslot] at hkslot
              exact absurd hkslot (by simp)
          | succ k' =>
              refine ⟨k', by omega, ?_⟩
              rw [show i + 1 + k' + nco = i + (k' + 1) + nco from by omega]
              exact hkslot
      | some o =>
          cases o with
          | none => simp [findFree, hslot]
          | some c =>
              simp only [findFree, hslot]
              apply ih (i + 1)
              cases k with
              | zero =>
                  rw [show i + 0 + nco = i + nco from by omega, hslot] at hkslot
                  exact absurd hkslot (by simp)
              | succ k' =>
                  refine ⟨k', by omega, ?_⟩
                  rw [show i + 1 + k' + nco = i + (k' + 1) + nco from by omega]
                  exact hkslot

/-- Claim C6: on a non-full table (with an empty slot available), the id
returned by register is the first index of the rotating scan sequence
`(i + count) mod capacity`, `i = 0, 1, ...`, whose slot is empty; that
slot was Dead before the call (so ids are only reused after their previous
owner died) and holds the new coroutine afterwards, every other slot
unchanged — hence the returned id collides with no live coroutine. -/
theorem register_first_free (S : Schedule) (f u : Nat)
    (hlen : S.co.length = S.cap) (hfull : S.nco < S.cap)
    (hempty : ∃ j, j < S.cap ∧ S.co[j]? = some none) :
    ∃ id, coroutine_new S f u =
        some ({ S with co := S.co.set id (some (co_new f u)), nco := S.nco + 1 }, id) ∧
      id < S.cap ∧
      S.co[id]? = some none ∧
      coroutine_status S (id : Int) = some CoStatus.dead ∧
      (∃ i, i < S.cap ∧ id = (i + S.nco) % S.cap ∧
        ∀ j, j < i → S.co[(j + S.nco) % S.cap]? ≠ some none) ∧
      (S.co.set id (some (co_new f u)))[id]? = some (some (co_new f u)) ∧
      (∀ j, j ≠ id → (S.co.set id (some (co_new f u)))[j]? = S.co[j]?) := by
  have hpos : 0 < S.cap := by omega
  obtain ⟨j, hj, hjslot⟩ := hempty
  obtain ⟨k, hk, hkeq⟩ := mod_scan_surj S.cap S.nco j hj
  have hsome : (findFree S.co S.nco S.cap 0 S.cap).isSome := by
    apply findFree_isSome
    refine ⟨k, hk, ?_⟩
    rw [show 0 + k + S.nco = k + S.nco from by omega, hkeq]
    exact hjslot
  obtain ⟨id0, hid0⟩ := Option.isSome_iff_exists.mp hsome
  obtain ⟨i, hi, hideq, hidslot, hmin⟩ := findFree_some S.co S.nco S.cap S.cap 0 id0 hid0
  have hidlt : id0 < S.cap := by rw [hideq]; exact Nat.mod_lt _ hpos
  have hnotfull : ¬ S.cap ≤ S.nco := by omega
  refine ⟨id0, ?_, hidlt, hidslot, ?_, ⟨i, hi, ?_, ?_⟩, ?_, ?_⟩
  · simp [coroutine_new, hnotfull, hid0]
  · have hcond : (0 : Int) ≤ (id0 : Int) ∧ (id0 : Int) < (S.cap : Int) := by
      constructor
      · exact Int.natCast_nonneg id0
      · exact_mod_cast hidlt
    simp [coroutine_status, hcond, Int.toNat_natCast, hidslot]
  · rw [hideq]; congr 1; omega
  · intro j' hj' hc
    apply hmin j' hj'
    rw [show 0 + j' + S.nco = j' + S.nco from by omega]
    exact hc
  · exact List.getElem?_set_eq_of_lt _ (by omega)
  · intro j' hj'
    exact List.getElem?_set_ne (fun he => hj' he.symm)

/-- A scheduler after `k` registrations of a trivial entry on a freshly
opened scheduler (the spec §8 stress scenario driver). -/
def registerN : Nat → Option Schedule
  | 0 => some coroutine_open
  | k + 1 => (registerN k).bind fun S => (coroutine_new S 0 0).map Prod.fst

/-- Claim C7: register on a full table (count = capacity) doubles the
capacity, zero-initialises all the new slots except the first, which
receives the new coroutine, and returns the old capacity as the id; in
particular 17 registrations on a freshly opened scheduler (default
capacity 16) leave the table at capacity 32 with 17 live coroutines. -/
theorem register_full_doubles (S : Schedule) (f u : Nat)
    (hlen : S.co.length = S.cap) (hfull : S.nco = S.cap) (hpos : 0 < S.cap) :
    ∃ S', coroutine_new S f u = some (S', S.cap) ∧
      S'.cap = 2 * S.cap ∧
      S'.nco = S.nco + 1 ∧
      S'.co[S.cap]? = some (some (co_new f u)) ∧
      (∀ j, S.cap < j → j < 2 * S.cap → S'.co[j]? = some none) ∧
      (∀ j, j < S.cap → S'.co[j]? = S.co[j]?) ∧
      ((registerN 17).map fun S17 => (S17.cap, S17.nco)) = some (32, 17) := by
  have hle : S.cap ≤ S.nco := by omega
  refine ⟨{ S with co := (S.co ++ List.replicate S.cap none).set S.cap (some (co_new f u)),
                   cap := S.cap * 2, nco := S.nco + 1 },
          ?_, Nat.mul_comm S.cap 2, rfl, ?_, ?_, ?_, by rfl⟩
  · simp [coroutine_new, hle]
  · exact List.getElem?_set_eq_of_lt _ (by simp [hlen]; omega)
  · intro j hj1 hj2
    rw [List.getElem?_set_ne (by omega), List.getElem?_append_right (by omega),
        List.getElem?_replicate]
    rw [if_pos (by omega)]
  · intro j hj
    rw [List.getElem?_set_ne (by omega), List.getElem?_append_left (by omega)]

theorem resume_ret_eq (S : Schedule) (id : Int) (S' : Schedule)
    (h : coroutine_resume S id = ResumeOutcome.ret S') : S' = S := by
  by_cases h1 : S.running = -1
  case neg =>
    rw [resume_reentrant_aborts S id (Or.inl h1)] at h
    exact ResumeOutcome.noConfusion h
  by_cases h2 : 0 ≤ id ∧ id < (S.cap : Int)
  case neg =>
    have : coroutine_resume S id = ResumeOutcome.abort := by
      simp [coroutine_resume, h1, h2]
    rw [this] at h
    exact ResumeOutcome.noConfusion h
  obtain ⟨h2a, h2b⟩ := h2
  cases hslot : S.co[id.toNat]? with
  | none =>
      have : coroutine_resume S id = ResumeOutcome.abort := by
        simp [coroutine_resume, h1, h2a, h2b, hslot]
      rw [this] at h
      exact ResumeOutcome.noConfusion h
  | some o =>
      cases o with
      | none =>
          have : coroutine_resume S id = ResumeOutcome.ret S := by
            simp [coroutine_resume, h1, h2a, h2b, hslot]
          rw [this] at h
          injection h with h
          exact h.symm
      | some C =>
          cases hst : C.status with
          | dead =>
            have : coroutine_resume S id = ResumeOutcome.abort := by
              simp [coroutine_resume, h1, h2a, h2b, hslot, hst]
            rw [this] at h
            exact ResumeOutcome.noConfusion h
          | running =>
            have : coroutine_resume S id = ResumeOutcome.abort := by
              simp [coroutine_resume, h1, h2a, h2b, hslot, hst]
            rw [this] at h
            exact ResumeOutcome.noConfusion h
          | ready =>
            have : coroutine_resume S id = ResumeOutcome.switch
                { S with running := id,
                         co := S.co.set id.toNat (some { C with status := CoStatus.running }) } := by
              simp [coroutine_resume, h1, h2a, h2b, hslot, hst]
            rw [this] at h
            exact ResumeOutcome.noConfusion h
          | suspend =>
            have : coroutine_resume S id = ResumeOutcome.switch
                { S with stack := restore_bytes C.stack C.size S.stack,
                         running := id,
                         co := S.co.set id.toNat (some { C with status := CoStatus.running }) } := by
              simp [coroutine_resume, h1, h2a, h2b, hslot, hst]
            rw [this] at h
            exact ResumeOutcome.noConfusion h

theorem resume_switch_spec (S : Schedule) (id : Int) (S' : Schedule)
    (h : coroutine_resume S id = ResumeOutcome.switch S') :
    0 ≤ id ∧ id < (S.cap : Int) ∧ S'.running = id ∧ S'.cap = S.cap ∧
      S'.co.length = S.co.length ∧ S'.nco = S.nco ∧
      ∃ C, S.co[id.toNat]? = some (some C) ∧
        S'.co = S.co.set id.toNat (some { C with status := CoStatus.running }) := by
  by_cases h1 : S.running = -1
  case neg =>
    rw [resume_reentrant_aborts S id (Or.inl h1)] at h
    exact ResumeOutcome.noConfusion h
  by_cases h2 : 0 ≤ id ∧ id < (S.cap : Int)
  case neg =>
    have : coroutine_resume S id = ResumeOutcome.abort := by
      simp [coroutine_resume, h1, h2]
    rw [this] at h
    exact ResumeOutcome.noConfusion h
  obtain ⟨h2a, h2b⟩ := h2
  cases hslot : S.co[id.toNat]? with
  | none =>
      have : coroutine_resume S id = ResumeOutcome.abort := by
        simp [coroutine_resume, h1, h2a, h2b, hslot]
      rw [this] at h
      exact ResumeOutcome.noConfusion h
  | some o =>
      cases o with
      | none =>
          have : coroutine_resume S id = ResumeOutcome.ret S := by
            simp [coroutine_resume, h1, h2a, h2b, hslot]
          rw [this] at h
          exact ResumeOutcome.noConfusion h
      | some C =>
          cases hst : C.status with
          | dead =>
            have : coroutine_resume S id = ResumeOutcome.abort := by
              simp [coroutine_resume, h1, h2a, h2b, hslot, hst]
            rw [this] at h
            exact ResumeOutcome.noConfusion h
          | running =>
            have : coroutine_resume S id = ResumeOutcome.abort := by
              simp [coroutine_resume, h1, h2a, h2b, hslot, hst]
            rw [this] at h
            exact ResumeOutcome.noConfusion h
          | ready =>
            have heq : coroutine_resume S id = ResumeOutcome.switch
                { S with running := id,
                         co := S.co.set id.toNat (some { C with status := CoStatus.running }) } := by
              simp [coroutine_resume, h1, h2a, h2b, hslot, hst]
            rw [heq] at h
            injection h with h
            subst h
            exact ⟨h2a, h2b, rfl, rfl, by simp, rfl, C, rfl, rfl⟩
          | suspend =>
            have heq : coroutine_resume S id = ResumeOutcome.switch
                { S with stack := restore_bytes C.stack C.size S.stack,
                         running := id,
                         co := S.co.set id.toNat (some { C with status := CoStatus.running }) } := by
              simp [coroutine_resume, h1, h2a, h2b, hslot, hst]
            rw [heq] at h
            injection h with h
            subst h
            exact ⟨h2a, h2b, rfl, rfl, by simp, rfl, C, rfl, rfl⟩

theorem yield_clears_running (S : Schedule) (n : Nat) (S' : Schedule)
    (h : coroutine_yield S n = some S') : S'.running = -1 := by
  by_cases h1 : S.running < 0
  case pos => simp [coroutine_yield, h1] at h
  cases hslot : S.co[S.running.toNat]? with
  | none => simp [coroutine_yield, h1, hslot] at h
  | some o =>
      cases o with
      | none => simp [coroutine_yield, h1, hslot] at h
      | some C =>
          by_cases hn : n ≤ STACK_SIZE
          case neg => simp [coroutine_yield, h1, hslot, hn] at h
          have heq : coroutine_yield S n = some
              { S with co := S.co.set S.running.toNat
                          (some { save_stack_upd C S.stack n with status := CoStatus.suspend }),
                       running := -1 } := by
            simp [coroutine_yield, h1, hslot, hn]
          rw [heq] at h
          injection h with h
          subst h
          rfl

theorem mainfunc_clears_running (S : Schedule) (S' : Schedule)
    (h : mainfunc_finish S = some S') : S'.running = -1 := by
  by_cases h1 : S.running < 0
  case pos => simp [mainfunc_finish, h1] at h
  cases hslot : S.co[S.running.toNat]? with
  | none => simp [mainfunc_finish, h1, hslot] at h
  | some o =>
      cases o with
      | none => simp [mainfunc_finish, h1, hslot] at h
      | some C =>
          have heq : mainfunc_finish S = some
              { S with co := S.co.set S.running.toNat none,
                       nco := S.nco - 1, running := -1 } := by
            simp [mainfunc_finish, h1, hslot]
          rw [heq] at h
          injection h with h
          subst h
          rfl


theorem coroutine_status_of_slot (S : Schedule) (idn : Nat) (C : Coroutine)
    (hlt : idn < S.cap) (hslot : S.co[idn]? = some (some C)) :
    coroutine_status S (idn : Int) = some C.status := by
  unfold coroutine_status
  rw [if_pos ⟨Int.natCast_nonneg idn, by exact_mod_cast hlt⟩, Int.toNat_natCast, hslot]

theorem coroutine_status_dead_of_none (S : Schedule) (idn : Nat)
    (hlt : idn < S.cap) (hslot : S.co[idn]? = some none) :
    coroutine_status S (idn : Int) = some CoStatus.dead := by
  unfold coroutine_status
  rw [if_pos ⟨Int.natCast_nonneg idn, by exact_mod_cast hlt⟩, Int.toNat_natCast, hslot]

theorem coroutine_new_running_frame (S : Schedule) (f u : Nat) (S' : Schedule) (id : Nat)
    (hlen : S.co.length = S.cap)
    (h : coroutine_new S f u = some (S', id)) :
    S'.running = S.running ∧ S.cap ≤ S'.cap ∧
      ∀ j, j < S.co.length → S.co[j]? ≠ some none → S'.co[j]? = S.co[j]? := by
  by_cases hf : S.cap ≤ S.nco
  case pos =>
    have heq : coroutine_new S f u =
        some ({ S with co := (S.co ++ List.replicate S.cap none).set S.cap (some (co_new f u)),
                       cap := S.cap * 2, nco := S.nco + 1 }, S.cap) := by
      simp [coroutine_new, hf]
    rw [heq] at h
    injection h with h
    injection h with h1 h2
    subst h1
    refine ⟨rfl, by show S.cap ≤ S.cap * 2; omega, ?_⟩
    intro j hj _
    show ((S.co ++ List.replicate S.cap none).set S.cap (some (co_new f u)))[j]? = S.co[j]?
    rw [List.getElem?_set_ne (by omega), List.getElem?_append_left hj]
  case neg =>
    cases hff : findFree S.co S.nco S.cap 0 S.cap with
    | none => simp [coroutine_new, hf, hff] at h
    | some id0 =>
        have heq : coroutine_new S f u =
            some ({ S with co := S.co.set id0 (some (co_new f u)), nco := S.nco + 1 }, id0) := by
          simp [coroutine_new, hf, hff]
        rw [heq] at h
        injection h with h
        injection h with h1 h2
        subst h1
        obtain ⟨_, _, _, hid0slot, _⟩ := findFree_some S.co S.nco S.cap S.cap 0 id0 hff
        refine ⟨rfl, le_refl _, ?_⟩
        intro j hj hjne
        have hne : j ≠ id0 := fun he => hjne (he ▸ hid0slot)
        show (S.co.set id0 (some (co_new f u)))[j]? = S.co[j]?
        rw [List.getElem?_set_ne (fun he => hne he.symm)]

/-- Claim C8: every scheduler-state-mutating operation (register, resume
up to the context switch or its normal return, yield, and the trampoline
cleanup after an entry function returns) preserves the invariant that the
running id is either the none sentinel `-1` or a valid slot index holding
a coroutine whose state is Running; `coroutine_status` and
`coroutine_running` are pure reads and mutate nothing. -/
theorem running_invariant_preserved :
    (∀ S f u S' id, S.co.length = S.cap → RunningInv S →
        coroutine_new S f u = some (S', id) → RunningInv S') ∧
    (∀ S id S', coroutine_resume S id = ResumeOutcome.ret S' → RunningInv S → RunningInv S') ∧
    (∀ S id S', S.co.length = S.cap → coroutine_resume S id = ResumeOutcome.switch S' →
        RunningInv S') ∧
    (∀ S n S', coroutine_yield S n = some S' → RunningInv S') ∧
    (∀ S S', mainfunc_finish S = some S' → RunningInv S') := by
  refine ⟨?_, ?_, ?_, ?_, ?_⟩
  · intro S f u S' id hlen hinv h
    obtain ⟨hr, hcap, hframe⟩ := coroutine_new_running_frame S f u S' id hlen h
    rcases hinv with h0 | ⟨ha, hb, C, hC, hCs⟩
    · left; rw [hr, h0]
    · right
      rw [hr]
      have hcap' : (S.cap : Int) ≤ (S'.cap : Int) := by exact_mod_cast hcap
      refine ⟨ha, by omega, C, ?_, hCs⟩
      rw [hframe _ (by omega) (by rw [hC]; simp)]
      exact hC
  · intro S id S' h hinv
    rw [resume_ret_eq S id S' h]
    exact hinv
  · intro S id S' hlen h
    obtain ⟨h0, h1, hrun, hcap, _, _, C, hC, hco⟩ := resume_switch_spec S id S' h
    right
    rw [hrun, hcap]
    refine ⟨h0, h1, { C with status := CoStatus.running }, ?_, rfl⟩
    rw [hco]
    exact List.getElem?_set_eq_of_lt _ (by omega)
  · intro S n S' h
    exact Or.inl (yield_clears_running S n S' h)
  · intro S S' h
    exact Or.inl (mainfunc_clears_running S S' h)

/-- Claim C5: lifecycle status observations. A freshly registered id reads
Ready; resuming a Ready coroutine switches into it with its slot marked
Running and the running id reporting it; yielding marks the running
coroutine Suspended and clears the running id; and when the entry function
returns, the trampoline cleanup frees the coroutine, clears its slot (so
its status reads Dead), decrements the live count and clears the running
id. -/
theorem lifecycle_status :
    (∀ S f u S' id, S.co.length = S.cap → 0 < S.cap →
        coroutine_new S f u = some (S', id) →
        coroutine_status S' (id : Int) = some CoStatus.ready) ∧
    (∀ S id C, S.co.length = S.cap → S.running = -1 → 0 ≤ id → id < (S.cap : Int) →
        S.co[id.toNat]? = some (some C) → C.status = CoStatus.ready →
        ∃ S', coroutine_resume S id = ResumeOutcome.switch S' ∧
          coroutine_status S' id = some CoStatus.running ∧
          coroutine_running S' = id) ∧
    (∀ S n C, S.co.length = S.cap → 0 ≤ S.running → S.running < (S.cap : Int) →
        S.co[S.running.toNat]? = some (some C) → n ≤ STACK_SIZE →
        ∃ S', coroutine_yield S n = some S' ∧
          coroutine_status S' S.running = some CoStatus.suspend ∧
          coroutine_running S' = -1) ∧
    (∀ S C, S.co.length = S.cap → 0 ≤ S.running → S.running < (S.cap : Int) →
        S.co[S.running.toNat]? = some (some C) →
        ∃ S', mainfunc_finish S = some S' ∧
          coroutine_status S' S.running = some CoStatus.dead ∧
          S'.nco = S.nco - 1 ∧ coroutine_running S' = -1) := by
  refine ⟨?_, ?_, ?_, ?_⟩
  · intro S f u S' id hlen hpos h
    by_cases hf : S.cap ≤ S.nco
    case pos =>
      have heq : coroutine_new S f u =
          some ({ S with co := (S.co ++ List.replicate S.cap none).set S.cap (some (co_new f u)),
                         cap := S.cap * 2, nco := S.nco + 1 }, S.cap) := by
        simp [coroutine_new, hf]
      rw [heq] at h
      injection h with h
      injection h with h1 h2
      subst h1
      subst h2
      exact coroutine_status_of_slot _ S.cap (co_new f u)
        (by show S.cap < S.cap * 2; omega)
        (List.getElem?_set_eq_of_lt _ (by simp [hlen]; omega))
    case neg =>
      cases hff : findFree S.co S.nco S.cap 0 S.cap with
      | none => simp [coroutine_new, hf, hff] at h
      | some id0 =>
          have heq : coroutine_new S f u =
              some ({ S with co := S.co.set id0 (some (co_new f u)), nco := S.nco + 1 }, id0) := by
            simp [coroutine_new, hf, hff]
          rw [heq] at h
          injection h with h
          injection h with h1 h2
          subst h1
          subst h2
          obtain ⟨_, _, hideq, _, _⟩ := findFree_some S.co S.nco S.cap S.cap 0 id0 hff
          have hidlt : id0 < S.cap := by rw [hideq]; exact Nat.mod_lt _ (by omega)
          exact coroutine_status_of_slot _ id0 (co_new f u) hidlt
            (List.getElem?_set_eq_of_lt _ (by omega))
  · intro S id C hlen hrun hid0 hid1 hslot hst
    refine ⟨{ S with running := id,
                     co := S.co.set id.toNat (some { C with status := CoStatus.running }) },
            ?_, ?_, rfl⟩
    · simp [coroutine_resume, hrun, hslot, hst, hid0, hid1]
    · have hid' : ((id.toNat : Nat) : Int) = id := Int.toNat_of_nonneg hid0
      rw [← hid']
      exact coroutine_status_of_slot _ id.toNat { C with status := CoStatus.running }
        (by show id.toNat < S.cap; omega) (List.getElem?_set_eq_of_lt _ (by omega))
  · intro S n C hlen hrun hrunlt hslot hn
    have hnotlt : ¬ (S.running < 0) := by omega
    refine ⟨{ S with
              co := S.co.set S.running.toNat
                      (some { save_stack_upd C S.stack n with status := CoStatus.suspend }),
              running := -1 }, ?_, ?_, rfl⟩
    · simp [coroutine_yield, hnotlt, hslot, hn]
    · have hid' : ((S.running.toNat : Nat) : Int) = S.running := Int.toNat_of_nonneg hrun
      rw [← hid']
      exact coroutine_status_of_slot _ S.running.toNat
        { save_stack_upd C S.stack n with status := CoStatus.suspend }
        (by show S.running.toNat < S.cap; omega) (List.getElem?_set_eq_of_lt _ (by omega))
  · intro S C hlen hrun hrunlt hslot
    have hnotlt : ¬ (S.running < 0) := by omega
    refine ⟨{ S with co := S.co.set S.running.toNat none,
                     nco := S.nco - 1, running := -1 }, ?_, ?_, rfl, rfl⟩
    · simp [mainfunc_finish, hnotlt, hslot]
    · have hid' : ((S.running.toNat : Nat) : Int) = S.running := Int.toNat_of_nonneg hrun
      rw [← hid']
      exact coroutine_status_dead_of_none _ S.running.toNat
        (by show S.running.toNat < S.cap; omega) (List.getElem?_set_eq_of_lt _ (by omega))

/-- Test fixture: a coroutine suspended with 4 saved bytes. -/
def suspCo : Coroutine :=
  { func := 0, ud := 0, cap := 4, size := 4, status := CoStatus.suspend,
    stack := fun i => i + 1 }

/-- Test fixture: a coroutine in the Running state with an empty buffer. -/
def runCo : Coroutine :=
  { func := 0, ud := 0, cap := 2, size := 0, status := CoStatus.running,
    stack := fun _ => 0 }

/-- Test fixture: scheduler holding `suspCo` in slot 0, nothing running. -/
def suspSched : Schedule :=
  { stack := fun _ => 0, nco := 1, cap := 16, running := -1,
    co := (List.replicate 16 none).set 0 (some suspCo) }

/-- Test fixture: scheduler with `runCo` in slot 0 currently running. -/
def runSched : Schedule :=
  { stack := fun i => i % 256, nco := 1, cap := 16, running := 0,
    co := (List.replicate 16 none).set 0 (some runCo) }

/-- Test fixture: scheduler holding a Running-state coroutine in slot 0
while its running id is the none sentinel (the state a broken caller
would need to hand `coroutine_resume` to reach the `assert(0)` default). -/
def invalidSched : Schedule :=
  { stack := fun _ => 0, nco := 1, cap := 16, running := -1,
    co := (List.replicate 16 none).set 0 (some runCo) }

/-- Test fixture: `coroutine_open` after one registration. -/
def openReg : Schedule :=
  { stack := fun _ => 0, nco := 1, cap := 16, running := -1,
    co := (List.replicate 16 none).set 0 (some (co_new 0 0)) }

/-- Test fixture: the state `coroutine_resume suspSched 0` switches into. -/
def suspResumed : Schedule :=
  { stack := restore_bytes suspCo.stack suspCo.size suspSched.stack, nco := 1, cap := 16,
    running := 0, co := suspSched.co.set 0 (some { suspCo with status := CoStatus.running }) }

/-- Test fixture: the state `coroutine_yield runSched 4` hands back. -/
def runYielded : Schedule :=
  { stack := runSched.stack, nco := 1, cap := 16, running := -1,
    co := runSched.co.set 0
            (some { save_stack_upd runCo runSched.stack 4 with status := CoStatus.suspend }) }

/-- Test fixture: the state after `mainfunc_finish runSched`. -/
def runFinished : Schedule :=
  { stack := runSched.stack, nco := 0, cap := 16, running := -1,
    co := runSched.co.set 0 none }

/-- Test fixture: a scheduler whose table is full (count = capacity). -/
def fullSched : Schedule :=
  { stack := fun _ => 0, nco := 16, cap := 16, running := -1,
    co := List.replicate 16 (some runCo) }

/-- Witness for `resume_suspended` on the concrete suspended fixture. -/
theorem resume_suspended_witness :
    ∃ S', coroutine_resume suspSched 0 = ResumeOutcome.switch S' ∧
      S'.stack = restore_bytes suspCo.stack suspCo.size suspSched.stack ∧
      (∀ i < suspCo.size, S'.stack (STACK_SIZE - suspCo.size + i) = suspCo.stack i) ∧
      (∀ off < STACK_SIZE - suspCo.size, S'.stack off = suspSched.stack off) ∧
      coroutine_status S' 0 = some CoStatus.running ∧
      coroutine_running S' = 0 ∧
      S'.nco = suspSched.nco ∧ S'.cap = suspSched.cap :=
  resume_suspended suspSched 0 suspCo rfl (by decide) (by decide) rfl rfl (by decide) rfl

/-- Witness for `yield_saves` on the concrete running fixture. -/
theorem yield_saves_witness :
    ∃ C', coroutine_yield runSched 4 =
        some { runSched with co := runSched.co.set runSched.running.toNat (some C'),
                             running := -1 } ∧
      C'.size = 4 ∧
      (∀ i < 4, C'.stack i = runSched.stack (STACK_SIZE - 4 + i)) ∧
      C'.cap = (if runCo.cap < 4 then 4 else runCo.cap) ∧
      runCo.cap ≤ C'.cap ∧
      (4 ≤ runCo.cap → C'.cap = runCo.cap ∧ ∀ i, 4 ≤ i → C'.stack i = runCo.stack i) ∧
      C'.status = CoStatus.suspend :=
  yield_saves runSched 4 runCo (by decide) rfl (by decide)

/-- Witness for `resume_reentrant_aborts`: resuming while id 0 runs. -/
theorem resume_reentrant_aborts_witness :
    coroutine_resume runSched 3 = ResumeOutcome.abort :=
  resume_reentrant_aborts runSched 3 (Or.inl (by decide))

/-- Witness for `resume_dead_noop`: slot 1 of the fixture is empty. -/
theorem resume_dead_noop_witness :
    coroutine_resume suspSched 1 = ResumeOutcome.ret suspSched :=
  resume_dead_noop suspSched 1 rfl (by decide) (by decide) rfl

/-- Witness for `resume_invalid_state`: slot 0 of the fixture holds a
coroutine already in the Running state, so resume hits `assert(0)`. -/
theorem resume_invalid_state_witness :
    coroutine_resume invalidSched 0 = ResumeOutcome.abort :=
  (resume_invalid_state invalidSched 0 rfl (by decide) (by decide)).1 runCo rfl
    (by decide) (by decide)

/-- Witness for `register_first_free` on a freshly opened scheduler. -/
theorem register_first_free_witness :
    ∃ id, coroutine_new coroutine_open 0 0 =
        some ({ coroutine_open with
                co := coroutine_open.co.set id (some (co_new 0 0)),
                nco := coroutine_open.nco + 1 }, id) ∧
      id < coroutine_open.cap ∧
      coroutine_open.co[id]? = some none ∧
      coroutine_status coroutine_open (id : Int) = some CoStatus.dead ∧
      (∃ i, i < coroutine_open.cap ∧
        id = (i + coroutine_open.nco) % coroutine_open.cap ∧
        ∀ j, j < i →
          coroutine_open.co[(j + coroutine_open.nco) % coroutine_open.cap]? ≠ some none) ∧
      (coroutine_open.co.set id (some (co_new 0 0)))[id]? = some (some (co_new 0 0)) ∧
      (∀ j, j ≠ id →
        (coroutine_open.co.set id (some (co_new 0 0)))[j]? = coroutine_open.co[j]?) :=
  register_first_free coroutine_open 0 0 rfl (by decide) ⟨0, by decide, rfl⟩

/-- Witness for `register_full_doubles` on a full 16-slot table. -/
theorem register_full_doubles_witness :
    ∃ S', coroutine_new fullSched 0 0 = some (S', fullSched.cap) ∧
      S'.cap = 2 * fullSched.cap ∧
      S'.nco = fullSched.nco + 1 ∧
      S'.co[fullSched.cap]? = some (some (co_new 0 0)) ∧
      (∀ j, fullSched.cap < j → j < 2 * fullSched.cap → S'.co[j]? = some none) ∧
      (∀ j, j < fullSched.cap → S'.co[j]? = fullSched.co[j]?) ∧
      ((registerN 17).map fun S17 => (S17.cap, S17.nco)) = some (32, 17) :=
  register_full_doubles fullSched 0 0 rfl rfl (by decide)

/-- Witness for `running_invariant_preserved`: the invariant holds after a
concrete register, no-op resume, switching resume, yield and trampoline
cleanup. -/
theorem running_invariant_preserved_witness :
    RunningInv openReg ∧ RunningInv suspSched ∧ RunningInv suspResumed ∧
    RunningInv runYielded ∧ RunningInv runFinished :=
  ⟨running_invariant_preserved.1 coroutine_open 0 0 openReg 0 rfl (Or.inl rfl) rfl,
   running_invariant_preserved.2.1 suspSched 1 suspSched rfl (Or.inl rfl),
   running_invariant_preserved.2.2.1 suspSched 0 suspResumed rfl rfl,
   running_invariant_preserved.2.2.2.1 runSched 4 runYielded rfl,
   running_invariant_preserved.2.2.2.2 runSched runFinished rfl⟩

/-- Witness for `lifecycle_status` on concrete fixtures: register then read
Ready, resume a Ready coroutine, yield a Running one, finish one. -/
theorem lifecycle_status_witness :
    coroutine_status openReg 0 = some CoStatus.ready ∧
    (∃ S', coroutine_resume openReg 0 = ResumeOutcome.switch S' ∧
      coroutine_status S' 0 = some CoStatus.running ∧
      coroutine_running S' = 0) ∧
    (∃ S', coroutine_yield runSched 4 = some S' ∧
      coroutine_status S' runSched.running = some CoStatus.suspend ∧
      coroutine_running S' = -1) ∧
    (∃ S', mainfunc_finish runSched = some S' ∧
      coroutine_status S' runSched.running = some CoStatus.dead ∧
      S'.nco = runSched.nco - 1 ∧ coroutine_running S' = -1) :=
  ⟨lifecycle_status.1 coroutine_open 0 0 openReg 0 rfl (by decide) rfl,
   lifecycle_status.2.1 openReg 0 (co_new 0 0) rfl rfl (by decide) (by decide) rfl rfl,
   lifecycle_status.2.2.1 runSched 4 runCo rfl (by decide) (by decide) rfl (by decide),
   lifecycle_status.2.2.2 runSched runCo rfl (by decide) (by decide) rfl⟩
